import Mathlib

/-!
Shallow embedding of the final dynamic-array containers of the repository:
`IntSet` from `Assignment 2/IntSet.cpp` and `sequence` from
`Assignment 3/Sequence.cpp`.  An `IntSet` is modelled by the list of its
logically valid slots `data[0], …, data[used-1]` (so `used` is the length of
the list); a `sequence` is modelled by a record carrying the buffer as a total
function `Nat → Int` together with `capacity`, `used` and `current_index`.
Machine `int` values are modelled as `Int` (no operation here can overflow an
`int` on the inputs considered) and the unsigned `size_type` as `Nat`.

Two locals of the C++ source are declared without an initializer and read
before any assignment on some paths: `found` in `IntSet::contains` and `same`
in `operator==`.  The model makes the indeterminate initial value of such a
local an explicit `Bool` parameter (called `g` resp. `gs` below), so that the
dependence of a result on uninitialized memory is visible in the embedding.
-/

namespace IntSetCpp

/-- Model of `IntSet::size` / `IntSet::isEmpty`: `used == 0`, i.e. the list of
valid slots is empty. -/
def isEmpty (s : List Int) : Bool := s.length == 0

/-- Model of `IntSet::contains`.  The C++ local `bool found;` is uninitialized
and is read by the loop condition `while (found != true && index < used)`
before the first assignment; its indeterminate initial value is the parameter
`g`.  If the set is empty the function returns `false` (the source handles
that case in its `isEmpty` branch, which assigns `found = false` before any
read of `found`).  Otherwise, if `g` is `true`
the loop exits at once and `true` is returned; if `g` is `false` the loop
scans `data[0..used)` and stops at the first index whose value equals `anInt`,
so the result is exactly list membership. -/
def containsB (g : Bool) (s : List Int) (anInt : Int) : Bool :=
  if s.length = 0 then false
  else if g then true
  else s.any (fun x => x == anInt)

/-- Model of `IntSet::isSubsetOf`: `true` for an empty receiver; `false` when
`used > otherIntSet.used`; otherwise every element of the receiver must be
found in the other set via `contains` (whose uninitialized local is `g`). -/
def isSubsetOf (g : Bool) (a b : List Int) : Bool :=
  if a.length = 0 then true
  else if b.length < a.length then false
  else a.all (fun x => containsB g b x)

/-- Model of `IntSet::add`.  Both branches of the source execute
`data[used] = anInt; used++;` and return `true`: the non-empty branch assigns
`addSuccessful = false` when `contains(anInt)` holds but unconditionally
overwrites it with `true` after the write, and nothing guards the write
itself, so `add` appends `anInt` even when it is already a member.  (The
non-empty branch grows the buffer first when `used >= capacity`; capacity is
not part of this content model.) -/
def add (s : List Int) (anInt : Int) : Bool × List Int :=
  if s.length = 0 then (true, s ++ [anInt]) else (true, s ++ [anInt])

/-- The state reached from a default-constructed (empty) `IntSet` by calling
`add` once per element of `vs`, in order. -/
def fromAdds (vs : List Int) : List Int :=
  vs.foldl (fun s v => (add s v).2) []

/-- Model of the removal loop of `IntSet::remove`: scan for the first slot
holding `anInt` and, if found, shift every following slot left by one
(`for (j = i; j < used - 1; j++) data[j] = data[j+1]`) and decrement `used`;
the subsequent `copy(data + i, data + used, data + i)` call copies a range
onto itself and has no effect.  Returns the success flag and the new list of
valid slots. -/
def removeScan : List Int → Int → Bool × List Int
  | [], _ => (false, [])
  | x :: xs, anInt =>
      if x = anInt then (true, xs)
      else ((removeScan xs anInt).1, x :: (removeScan xs anInt).2)

/-- Model of `IntSet::remove`: return `false` and change nothing when
`!contains(anInt) || isEmpty()`; otherwise run the removal scan. -/
def remove (g : Bool) (s : List Int) (anInt : Int) : Bool × List Int :=
  if !containsB g s anInt || isEmpty s then (false, s)
  else removeScan s anInt

/-- Model of the inner loop of `IntSet::subtract` at a fixed outer index `i`:
`for (j = 0; j < otherIntSet.used; j++) if (diff.data[i] == otherIntSet.data[j])
diff.remove(diff.data[i]);`.  Crucially `diff.data[i]` is re-read at every
comparison, so after a removal shifted a new value into slot `i` the remaining
iterations compare that new value.  `diff.getD i 0` models the in-range read
`diff.data[i]` (every evaluation below keeps `i` in range). -/
def subtractInner (g : Bool) (i : Nat) : List Int → List Int → List Int
  | diff, [] => diff
  | diff, b :: bs =>
      if diff.getD i 0 = b then
        subtractInner g i (remove g diff (diff.getD i 0)).2 bs
      else subtractInner g i diff bs

/-- Model of the outer loop of `IntSet::subtract`:
`for (i = 0; i < diff.used; i++) { inner loop }` where `diff.used` shrinks as
elements are removed.  Since `i` increases by one per iteration and
`diff.used` never grows, the loop performs at most `diff.used`-at-entry
iterations; `fuel` is an upper bound on the remaining iterations, consumed
one per step, and is never exhausted when it starts at the entry length. -/
def subtractOuter (g : Bool) (bs : List Int) : Nat → List Int → Nat → List Int
  | 0, diff, _ => diff
  | fuel + 1, diff, i =>
      if i < diff.length then subtractOuter g bs fuel (subtractInner g i diff bs) (i + 1)
      else diff

/-- Model of `IntSet::subtract`: the result `diff` starts as a copy of the
receiver's valid slots; if the other set is empty it is returned as is,
otherwise the nested removal loops run. -/
def subtract (g : Bool) (a b : List Int) : List Int :=
  if b.length = 0 then a else subtractOuter g b a.length a 0

/-- Model of `IntSet::intersect`: if the other set is empty the result is
empty; otherwise for every `i` over the receiver and every `j` over the other
set, `otherIntSet.data[j]` is appended whenever `data[i] == otherIntSet.data[j]`
(one append per matching pair, in loop order). -/
def intersect (a b : List Int) : List Int :=
  if b.length = 0 then [] else (a.map (fun x => b.filter (fun y => x == y))).flatten

/-- Model of `IntSet::unionWith`: the result's slots are the slots of
`intersect(other)`, then of `subtract(other)`, then of `other.subtract(*this)`,
written consecutively (the source sets `unionSet.used` to the total first and
then copies the three blocks in this order). -/
def unionWith (g : Bool) (a b : List Int) : List Int :=
  intersect a b ++ subtract g a b ++ subtract g b a

/-- Model of `operator==(const IntSet&, const IntSet&)`.  The local
`bool same;` is uninitialized; its indeterminate initial value is `gs`.  The
source assigns `same` when both sets are empty (`true`), when the sizes differ
(`false`), and when the sizes agree and the sets are mutual subsets (`true`);
on the remaining path — equal sizes but not mutual subsets — `same` is
returned without ever being assigned. -/
def eqOp (gs g : Bool) (a b : List Int) : Bool :=
  if a.length = 0 ∧ b.length = 0 then true
  else if a.length ≠ b.length then false
  else if isSubsetOf g a b && isSubsetOf g b a then true
  else gs

/-- Model of the `IntSet(int initial_capacity)` constructor's capacity: the
requested value, replaced by `DEFAULT_CAPACITY` when it is `< 1`.  The value
of `DEFAULT_CAPACITY` lives in the header `IntSet.h`, which is not part of
the sources; it is the parameter `dc` here, constrained only to be ≥ 1 where
needed. -/
def ctorCapacity (dc : Nat) (requested : Int) : Nat :=
  if requested < 1 then dc else requested.toNat

/-- Indices written into the backing array of the result set by the initial
copy loop of `IntSet::subtract` (`diff.data[i] = data[i]` for `i < used`,
present identically in both branches).  The result set `diff` is
default-constructed, so its capacity is `DEFAULT_CAPACITY`, and
`IntSet::subtract` contains no call to `resize`. -/
def subtractWriteIndices (a : List Int) : List Nat := List.range a.length

theorem add_snd (s : List Int) (v : Int) : (add s v).2 = s ++ [v] := by
  unfold add; split <;> rfl

theorem fromAdds_eq (vs : List Int) : fromAdds vs = vs := by
  have h : ∀ (ws : List Int) (s : List Int),
      ws.foldl (fun t v => (add t v).2) s = s ++ ws := by
    intro ws
    induction ws with
    | nil => intro s; simp
    | cons w ws ih =>
        intro s
        rw [List.foldl_cons, add_snd, ih]
        simp
  simpa using h vs []

end IntSetCpp

/-- Claim C1: for `v ∉ S`, `add` appends and grows the count — but for `v`
already in `S` the source still executes `data[used] = anInt; used++;`
(the `addSuccessful = false` assignment is dead, being overwritten), so the
set's contents and size change.  At `S = {1}`, `v = 1`: `1` is a member, yet
`add` returns `true` and the slots become `[1, 1]` with the size increased by
one, contradicting the claim's already-a-member case. -/
theorem add_existing_element_appends_duplicate :
    IntSetCpp.containsB false (IntSetCpp.fromAdds [1]) 1 = true ∧
    IntSetCpp.add (IntSetCpp.fromAdds [1]) 1 = (true, [1, 1]) ∧
    (IntSetCpp.add (IntSetCpp.fromAdds [1]) 1).2.length
      = (IntSetCpp.fromAdds [1]).length + 1 := by
  decide

/-- Claim C2: the documented invariant says the values in `data[0..used)` are
pairwise distinct in every reachable state, but the state reached from an
empty `IntSet` by `add(1); add(1)` — two public operations — has slots
`[1, 1]`, which are not distinct. -/
theorem add_reaches_state_with_duplicates :
    IntSetCpp.fromAdds [1, 1] = [1, 1] ∧ ¬ (IntSetCpp.fromAdds [1, 1]).Nodup := by
  decide

/-- Claim C3: `subtract` should return exactly `S` minus `T`, but after
`diff.remove(diff.data[i])` shifts a new value into slot `i` the inner loop
keeps comparing that new value against the remaining elements of `T` and the
outer loop then skips past it.  For `S` with slots `[1, 2]` and `T` with slots
`[2, 1]` (both reachable by `add`s, and denoting identical sets), the source
returns a set containing `2`, although `2 ∈ T`; the true difference is empty. -/
theorem subtract_keeps_element_of_other :
    IntSetCpp.fromAdds [1, 2] = [1, 2] ∧
    IntSetCpp.fromAdds [2, 1] = [2, 1] ∧
    IntSetCpp.subtract false (IntSetCpp.fromAdds [1, 2]) (IntSetCpp.fromAdds [2, 1]) = [2] ∧
    (2 : Int) ∈ IntSetCpp.fromAdds [2, 1] := by
  decide

/-- Claim C4: `unionWith` writes the blocks `intersect`, `this − other`,
`other − this` in that order, and the claim says every union member appears
exactly once.  With `S = [1, 2]` and `T = [2, 1]` the (buggy) `subtract`
leaves `2` in `S − T` and `1` in `T − S`, so the union's slots are
`[1, 2, 2, 1]`: the values `1` and `2` each appear twice. -/
theorem unionWith_produces_duplicates :
    IntSetCpp.unionWith false (IntSetCpp.fromAdds [1, 2]) (IntSetCpp.fromAdds [2, 1])
      = [1, 2, 2, 1] ∧
    ¬ (IntSetCpp.unionWith false (IntSetCpp.fromAdds [1, 2])
        (IntSetCpp.fromAdds [2, 1])).Nodup := by
  decide

/-- Claim C5: the claim says every element write into a set's backing array is
preceded by growth whenever it would exceed capacity.  `IntSet::subtract`
default-constructs its result `diff` (capacity `DEFAULT_CAPACITY`, the
parameter `dc`) and never calls `resize`, yet its copy loop writes
`diff.data[i]` for every `i < used` of the receiver.  For every value of
`DEFAULT_CAPACITY ≥ 1`, subtracting from a set with `dc + 1` elements writes
at index `dc`, which is not below the result's capacity `dc`. -/
theorem subtract_write_index_reaches_capacity (dc : Nat) (hdc : 1 ≤ dc) :
    ∃ i ∈ IntSetCpp.subtractWriteIndices
        (IntSetCpp.fromAdds ((List.range (dc + 1)).map Int.ofNat)),
      IntSetCpp.ctorCapacity dc (dc : Int) ≤ i := by
  refine ⟨dc, ?_, ?_⟩
  · unfold IntSetCpp.subtractWriteIndices
    rw [IntSetCpp.fromAdds_eq, List.length_map, List.length_range]
    exact List.mem_range.mpr (Nat.lt_succ_self dc)
  · have h : IntSetCpp.ctorCapacity dc (dc : Int) = dc := by
      unfold IntSetCpp.ctorCapacity
      rw [if_neg (by exact_mod_cast Nat.not_lt.mpr hdc)]
      exact Int.toNat_natCast dc
    exact h.le

theorem subtract_write_index_reaches_capacity_w :
    1 ≤ 1 ∧
    ∃ i ∈ IntSetCpp.subtractWriteIndices
        (IntSetCpp.fromAdds ((List.range (1 + 1)).map Int.ofNat)),
      IntSetCpp.ctorCapacity 1 ((1 : Nat) : Int) ≤ i :=
  ⟨Nat.le_refl 1, subtract_write_index_reaches_capacity 1 (Nat.le_refl 1)⟩

/-- Claim C6: the claim says `operator==` returns `true` iff the sizes agree
and the sets are mutual subsets.  For the reachable sets `{1}` and `{2}` the
sizes agree but the sets are not mutual subsets, and on that path the source
returns the local `same` without ever assigning it: the result is whatever
value the uninitialized local happens to hold (`true` when it is `true`,
`false` when it is `false`), while the claim requires `false`. -/
theorem eqOp_returns_uninitialized_local :
    IntSetCpp.eqOp true false (IntSetCpp.fromAdds [1]) (IntSetCpp.fromAdds [2]) = true ∧
    IntSetCpp.eqOp false false (IntSetCpp.fromAdds [1]) (IntSetCpp.fromAdds [2]) = false ∧
    (IntSetCpp.fromAdds [1]).length = (IntSetCpp.fromAdds [2]).length ∧
    ¬ (1 : Int) ∈ IntSetCpp.fromAdds [2] := by
  decide

namespace SequenceCpp

/-- Model of the `sequence` class of `Assignment 3/Sequence.cpp` (namespace
`CS3358_SSII_2015` in the source).  The backing buffer is modelled as a total
function `Nat → Int`: indices `< capacity` are the allocated slots, of which
`[0, used)` hold the sequence's items; values at indices `≥ used` correspond
to indeterminate buffer contents and no theorem below depends on them. -/
structure sequence where
  data : Nat → Int
  capacity : Nat
  used : Nat
  current_index : Nat

/-- Model of the `sequence(size_type initial_capacity)` constructor:
`used = 0`, `current_index = used = 0`, capacity as requested but replaced by
`1` when it is `0`; the fresh buffer's indeterminate contents are the
parameter `g`. -/
def sequenceNew (initial_capacity : Nat) (g : Nat → Int) : sequence :=
  { data := g
    capacity := if initial_capacity = 0 then 1 else initial_capacity
    used := 0
    current_index := 0 }

/-- Model of `sequence::resize`: the requested capacity is clamped up to
`used` and to `1`; the copy loop preserves slots `[0, used)`.  Slots beyond
`used` of the fresh buffer are indeterminate in the source; the model keeps
the old values there, and no theorem depends on them. -/
def seqResize (s : sequence) (new_capacity : Nat) : sequence :=
  { s with capacity :=
      if (if new_capacity < s.used then s.used else new_capacity) = 0 then 1
      else if new_capacity < s.used then s.used else new_capacity }

/-- Model of `sequence::size`: returns `used`. -/
def size (s : sequence) : Nat := s.used

/-- Model of `sequence::is_item`: `validItem` starts `true` and is set to
`false` exactly when `current_index == used`. -/
def is_item (s : sequence) : Bool := !(s.current_index == s.used)

/-- Model of `sequence::start`: unconditionally sets `current_index = 0`. -/
def start (s : sequence) : sequence := { s with current_index := 0 }

/-- Model of `sequence::advance`: when there is no current item it (re)sets
`current_index = used`; otherwise it increments `current_index`.  The source
contains no `assert`, so the call is well defined in both cases. -/
def advance (s : sequence) : sequence :=
  if !(is_item s) then { s with current_index := s.used }
  else { s with current_index := s.current_index + 1 }

/-- Model of `sequence::current`: returns `data[current_index]` (the source
asserts `is_item()` first; the theorems below only apply it in that case). -/
def current (s : sequence) : Int := s.data s.current_index

/-- Capacity requested by the growth calls of `insert`/`attach`:
`size_type((1.25 * capacity) + 1)`.  Since `1.25 * capacity = 5*capacity/4`
has an exact double representation for every capacity arising here, the
truncating cast yields `5 * capacity / 4 + 1` (with `/` the integer
division). -/
def grownCapacity (capacity : Nat) : Nat := 5 * capacity / 4 + 1

/-- Model of `sequence::insert`: grow first when `used == capacity`; when
there is no current item set `current_index = 0`; the loop
`while (i > current_index) { data[i] = data[i-1]; i--; }` starting at
`i = used` shifts slots `[current_index, used)` one to the right (each slot is
read before it is overwritten); then `used++` and the entry is written at
`current_index`, which is left pointing at it. -/
def insert (s0 : sequence) (entry : Int) : sequence :=
  let s := if s0.used = s0.capacity then seqResize s0 (grownCapacity s0.capacity) else s0
  let ci := if s.current_index = s.used then 0 else s.current_index
  { data := fun j =>
      if j = ci then entry
      else if ci + 1 ≤ j ∧ j ≤ s.used then s.data (j - 1)
      else s.data j
    capacity := s.capacity
    used := s.used + 1
    current_index := ci }

/-- Model of `sequence::attach`: grow first when `used == capacity`.  With no
current item the entry is written at slot `used` (which becomes the current
item, since `current_index` is left equal to the old `used`).  With the
current item last, `current_index` and `used` are incremented and the entry
written at the new `current_index`.  Otherwise the same shift loop as in
`insert` moves slots `[current_index+1, used)`... moves slots right, and the
entry is written at `current_index + 1`, which becomes the current index. -/
def attach (s0 : sequence) (entry : Int) : sequence :=
  let s := if s0.used = s0.capacity then seqResize s0 (grownCapacity s0.capacity) else s0
  if s.current_index = s.used then
    { s with
      data := fun j => if j = s.current_index then entry else s.data j
      used := s.used + 1 }
  else if s.current_index = s.used - 1 then
    { s with
      data := fun j => if j = s.current_index + 1 then entry else s.data j
      current_index := s.current_index + 1
      used := s.used + 1 }
  else
    { data := fun j =>
        if j = s.current_index + 1 then entry
        else if s.current_index + 1 ≤ j ∧ j ≤ s.used then s.data (j - 1)
        else s.data j
      capacity := s.capacity
      used := s.used + 1
      current_index := s.current_index + 1 }

/-- Model of `sequence::remove_current` (the source asserts `is_item()`; the
theorems below only apply it in that case).  When the current item is last,
`used` is decremented and `current_index` set to the new `used`.  Otherwise
the loop `for (i = current_index; i < used; i++) data[i] = data[i+1]` shifts
slots left (each source slot is read before it is overwritten, so slot `j`
receives the old value of slot `j + 1`) and `used` is decremented with
`current_index` unchanged. -/
def remove_current (s : sequence) : sequence :=
  if s.current_index = s.used - 1 then
    { s with used := s.used - 1, current_index := s.used - 1 }
  else
    { s with
      data := fun j =>
        if s.current_index ≤ j ∧ j < s.used then s.data (j + 1) else s.data j
      used := s.used - 1 }

/-- Buffer indices read by the shift loop of `sequence::remove_current`:
none when the current item is last (that branch touches no slot), otherwise
`data[i + 1]` for `i = current_index, …, used - 1`, i.e. indices
`current_index + 1, …, used`. -/
def removeReadIndices (s : sequence) : List Nat :=
  if s.current_index = s.used - 1 then []
  else List.range' (s.current_index + 1) (s.used - s.current_index)

/-- Buffer indices written by the shift loop of `sequence::remove_current`:
none when the current item is last, otherwise `data[i]` for
`i = current_index, …, used - 1`. -/
def removeWriteIndices (s : sequence) : List Nat :=
  if s.current_index = s.used - 1 then []
  else List.range' s.current_index (s.used - s.current_index)

/-- The logical contents of a sequence: the values of slots `[0, used)` in
order. -/
def toList (s : sequence) : List Int := (List.range s.used).map s.data

end SequenceCpp

/-- A sequence of capacity 2 holding `[5, 6]` with the current item `5` (not
the last item), reached from a newly constructed sequence of capacity 2 by
`insert(6); insert(5)`; its buffer is full (`used == capacity == 2`). -/
def seqFull : SequenceCpp.sequence :=
  SequenceCpp.insert (SequenceCpp.insert (SequenceCpp.sequenceNew 2 (fun _ => 0)) 6) 5

/-- Claim C9: the claim says every index read or written by `remove_current`
is strictly below the capacity.  On the full sequence `[5, 6]` (capacity 2)
with current item `5`, the shift loop `for (i = current_index; i < used; i++)
data[i] = data[i+1]` runs its last iteration at `i = used - 1 = 1` and reads
`data[2]`, i.e. index `used = capacity = 2` — one past the allocated buffer. -/
theorem remove_current_reads_index_capacity :
    SequenceCpp.is_item seqFull = true ∧
    SequenceCpp.toList seqFull = [5, 6] ∧
    seqFull.used = 2 ∧
    seqFull.capacity = 2 ∧
    seqFull.capacity ∈ SequenceCpp.removeReadIndices seqFull := by
  refine ⟨rfl, by decide, rfl, rfl, ?_⟩
  decide

/-- Claim C10: `sequence::advance` contains no assertion; called with no
current item (`current_index == used`) it takes the `!is_item()` branch and
re-assigns `current_index = used`, leaving every component of the sequence —
buffer, `capacity`, `used` and `current_index` — exactly as it was. -/
theorem advance_without_current_item_is_noop (s : SequenceCpp.sequence)
    (h : s.current_index = s.used) : SequenceCpp.advance s = s := by
  cases s with
  | mk d c u ci =>
      simp only at h
      subst h
      simp [SequenceCpp.advance, SequenceCpp.is_item]

theorem advance_without_current_item_is_noop_w :
    SequenceCpp.advance (SequenceCpp.sequenceNew 3 (fun _ => 0))
      = SequenceCpp.sequenceNew 3 (fun _ => 0) :=
  advance_without_current_item_is_noop (SequenceCpp.sequenceNew 3 (fun _ => 0)) rfl

theorem toList_length (s : SequenceCpp.sequence) :
    (SequenceCpp.toList s).length = s.used := by
  simp [SequenceCpp.toList]

theorem toList_getD (s : SequenceCpp.sequence) (k : Nat) (hk : k < s.used) :
    (SequenceCpp.toList s).getD k 0 = s.data k := by
  unfold SequenceCpp.toList
  rw [List.getD_eq_getElem _ _ (by simpa using hk)]
  simp

/-- Claim C8: with a current item at `current_index`, `remove_current` closes
the gap by shifting every following element one slot left (so the contents
become the old contents with the element at `current_index` dropped), `used`
decreases by one, `current_index` is unchanged, and afterwards the current
item is the element that moved into the vacated index — the old element at
`current_index + 1` — or there is no current item when the vacated index
equals the new `used` (the removed element was last). -/
theorem remove_current_drops_current_element (s : SequenceCpp.sequence)
    (h : s.current_index < s.used) :
    SequenceCpp.toList (SequenceCpp.remove_current s)
      = (SequenceCpp.toList s).take s.current_index
        ++ (SequenceCpp.toList s).drop (s.current_index + 1) ∧
    (SequenceCpp.remove_current s).used = s.used - 1 ∧
    (SequenceCpp.remove_current s).current_index = s.current_index ∧
    (if s.current_index < s.used - 1 then
        SequenceCpp.is_item (SequenceCpp.remove_current s) = true ∧
        SequenceCpp.current (SequenceCpp.remove_current s)
          = (SequenceCpp.toList s).getD (s.current_index + 1) 0
      else SequenceCpp.is_item (SequenceCpp.remove_current s) = false) := by
  have htake : (SequenceCpp.toList s).take s.current_index
      = (List.range s.current_index).map s.data := by
    unfold SequenceCpp.toList
    rw [← List.map_take, List.take_range, Nat.min_eq_left (Nat.le_of_lt h)]
  by_cases hlast : s.current_index = s.used - 1
  · have hu : 1 ≤ s.used := Nat.lt_of_le_of_lt (Nat.zero_le _) h
    refine ⟨?_, ?_, ?_, ?_⟩
    · rw [SequenceCpp.remove_current, if_pos hlast]
      have hdrop : (SequenceCpp.toList s).drop (s.current_index + 1) = [] := by
        apply List.drop_eq_nil_of_le
        rw [toList_length]
        omega
      rw [hdrop, List.append_nil, htake]
      unfold SequenceCpp.toList
      rw [hlast]
    · rw [SequenceCpp.remove_current, if_pos hlast]
    · rw [SequenceCpp.remove_current, if_pos hlast]
      simpa using hlast.symm
    · rw [if_neg (by omega)]
      rw [SequenceCpp.remove_current, if_pos hlast]
      simp [SequenceCpp.is_item]
  · have hci : s.current_index < s.used - 1 := by omega
    refine ⟨?_, ?_, ?_, ?_⟩
    · rw [SequenceCpp.remove_current, if_neg hlast]
      have hdrop : (SequenceCpp.toList s).drop (s.current_index + 1)
          = (List.range (s.used - 1 - s.current_index)).map
              (fun t => s.data (s.current_index + 1 + t)) := by
        unfold SequenceCpp.toList
        rw [← List.map_drop]
        have hsplit : List.range s.used
            = List.range (s.current_index + 1)
              ++ (List.range (s.used - 1 - s.current_index)).map
                  (fun x => s.current_index + 1 + x) := by
          conv_lhs =>
            rw [show s.used = (s.current_index + 1) + (s.used - 1 - s.current_index)
              from by omega]
          exact List.range_add _ _
        rw [hsplit, List.drop_left' (by rw [List.length_range]), List.map_map]
        rfl
      rw [htake, hdrop]
      show (List.range (s.used - 1)).map _ = _
      have hsplit2 : List.range (s.used - 1)
          = List.range s.current_index
            ++ (List.range (s.used - 1 - s.current_index)).map
                (fun x => s.current_index + x) := by
        conv_lhs =>
          rw [show s.used - 1 = s.current_index + (s.used - 1 - s.current_index)
            from by omega]
        exact List.range_add _ _
      rw [hsplit2, List.map_append, List.map_map]
      congr 1
      · apply List.map_congr_left
        intro j hj
        rw [List.mem_range] at hj
        show (if s.current_index ≤ j ∧ j < s.used then s.data (j + 1) else s.data j)
          = s.data j
        rw [if_neg (by omega)]
      · apply List.map_congr_left
        intro t ht
        rw [List.mem_range] at ht
        show (if s.current_index ≤ s.current_index + t ∧ s.current_index + t < s.used
            then s.data (s.current_index + t + 1) else s.data (s.current_index + t))
          = s.data (s.current_index + 1 + t)
        rw [if_pos (by omega)]
        congr 1
        omega
    · rw [SequenceCpp.remove_current, if_neg hlast]
    · rw [SequenceCpp.remove_current, if_neg hlast]
    · rw [if_pos hci]
      constructor
      · rw [SequenceCpp.remove_current, if_neg hlast]
        simp only [SequenceCpp.is_item]
        simp [Nat.ne_of_lt hci]
      · rw [SequenceCpp.remove_current, if_neg hlast]
        rw [toList_getD s _ (by omega)]
        simp only [SequenceCpp.current]
        rw [if_pos (by omega)]

/-- The sequence `[5, 6, 7]` with the current item `6` (at index 1). -/
def seqC8 : SequenceCpp.sequence :=
  { data := fun j => [5, 6, 7].getD j 0
    capacity := 3
    used := 3
    current_index := 1 }

theorem remove_current_drops_current_element_w :
    seqC8.current_index < seqC8.used ∧
    SequenceCpp.toList seqC8 = [5, 6, 7] ∧
    SequenceCpp.current seqC8 = 6 ∧
    SequenceCpp.toList (SequenceCpp.remove_current seqC8) = [5, 7] ∧
    SequenceCpp.current (SequenceCpp.remove_current seqC8) = 7 := by
  have hmain := remove_current_drops_current_element seqC8 (by decide)
  refine ⟨by decide, by decide, by decide, ?_, ?_⟩
  · exact hmain.1.trans (by decide)
  · have h4 := hmain.2.2.2
    rw [if_pos (by decide : seqC8.current_index < seqC8.used - 1)] at h4
    exact h4.2.trans (by decide)

/-- Claim C7: from a newly constructed empty sequence (any initial capacity,
any indeterminate buffer contents `g`), `insert(10); insert(20)` gives the
logical order `[20, 10]` with current item `20`, and a following `attach(30)`
gives `[20, 30, 10]` with current item `30`.  The growth triggered when the
buffer fills (initial capacities 1 and 2) is content-preserving, so the
result is the same for every initial capacity. -/
theorem insert_insert_attach_scenario (cap : Nat) (g : Nat → Int) :
    SequenceCpp.toList
        (SequenceCpp.insert (SequenceCpp.insert (SequenceCpp.sequenceNew cap g) 10) 20)
      = [20, 10] ∧
    SequenceCpp.is_item
        (SequenceCpp.insert (SequenceCpp.insert (SequenceCpp.sequenceNew cap g) 10) 20)
      = true ∧
    SequenceCpp.current
        (SequenceCpp.insert (SequenceCpp.insert (SequenceCpp.sequenceNew cap g) 10) 20)
      = 20 ∧
    SequenceCpp.toList
        (SequenceCpp.attach
          (SequenceCpp.insert (SequenceCpp.insert (SequenceCpp.sequenceNew cap g) 10) 20) 30)
      = [20, 30, 10] ∧
    SequenceCpp.is_item
        (SequenceCpp.attach
          (SequenceCpp.insert (SequenceCpp.insert (SequenceCpp.sequenceNew cap g) 10) 20) 30)
      = true ∧
    SequenceCpp.current
        (SequenceCpp.attach
          (SequenceCpp.insert (SequenceCpp.insert (SequenceCpp.sequenceNew cap g) 10) 20) 30)
      = 30 := by
  obtain _ | _ | _ | n := cap <;>
    refine ⟨rfl, rfl, rfl, ?_, ?_, ?_⟩ <;>
    simp [SequenceCpp.sequenceNew, SequenceCpp.insert, SequenceCpp.attach,
      SequenceCpp.seqResize, SequenceCpp.grownCapacity, SequenceCpp.toList,
      SequenceCpp.is_item, SequenceCpp.current, List.range_succ]
